import Mathlib

/-
Verification of the behaviour mixins in `src/lib/utils.jsx`.

The file embeds the three modules of the source as executable Lean
definitions:

  * the escaping helpers `escapeChar`, `unescapeChar`, `encodeFragment`
    (source lines 361-398), modelled on `List Char`;
  * the async state loader `loadState` of `createTaskClusterMixin`
    (source lines 108-169), modelled as explicit state passing over a
    component-state record with per-key iteration counters;
  * the `createWebListenerMixin` subscription manager (source lines
    255-355) and the `createLocationHashMixin` fragment synchronizer
    (source lines 400-453), modelled as state machines.

JavaScript strings are `List Char`; `undefined`/`null` and falsy checks
are modelled explicitly where the source relies on them.
-/

/-- `c.charCodeAt(0).toString(16)`: the lowercase hexadecimal digits of a
character's code point, as produced by JavaScript `toString(16)`. -/
def charHex (c : Char) : List Char := Nat.toDigits 16 c.toNat

/-- `escapeChar(character, string)` (source lines 368-374): every
occurrence of `character` in `string` is replaced by `'%' + hex code`.
The source builds a global single-character regular expression (escaping
the character for regex use); on strings this is exactly a per-character
replacement. -/
def escapeChar (c : Char) : List Char → List Char
  | [] => []
  | x :: xs => (if x = c then '%' :: charHex c else [x]) ++ escapeChar c xs

/-- Boolean test: the first list occurs at the start of the second. -/
def leadsWith : List Char → List Char → Bool
  | [], _ => true
  | _ :: _, [] => false
  | a :: as, b :: bs => if a = b then leadsWith as bs else false

/-- Boolean test: the first list occurs as a contiguous subsequence of
the second (JavaScript `string.includes(needle)` / regex match). -/
def containsSeq (needle : List Char) : List Char → Bool
  | [] => leadsWith needle []
  | x :: xs => leadsWith needle (x :: xs) || containsSeq needle xs

/-- Fuel-driven worker for `replaceAll`: left-to-right, non-overlapping
replacement of `needle` by `repl`, the semantics of JavaScript
`string.replace(globalRegExp, repl)` for a literal pattern.  The fuel is
an upper bound on the length of the remaining input, so the match below
is structural and the function evaluates inside the kernel. -/
def replaceAllFuel (needle repl : List Char) : Nat → List Char → List Char
  | _, [] => []
  | 0, x :: xs => x :: xs
  | k + 1, x :: xs =>
    if 1 ≤ needle.length ∧ leadsWith needle (x :: xs) = true then
      repl ++ replaceAllFuel needle repl k (List.drop (needle.length - 1) xs)
    else
      x :: replaceAllFuel needle repl k xs

/-- Replace every (left-to-right, non-overlapping) occurrence of
`needle` by `repl`. -/
def replaceAll (needle repl s : List Char) : List Char :=
  replaceAllFuel needle repl s.length s

/-- `unescapeChar(character, string)` (source lines 380-385): every
occurrence of the needle `'%' + hex code of character` is replaced by
the character itself. -/
def unescapeChar (c : Char) (s : List Char) : List Char :=
  replaceAll ('%' :: charHex c) [c] s

theorem charHex_slash : charHex '/' = ['2', 'f'] := by decide

/-- The result of `replaceAllFuel` does not depend on the fuel as long
as the fuel is at least the length of the input. -/
theorem replaceAllFuel_fuel (needle repl : List Char) :
    ∀ (k j : Nat) (s : List Char), j ≤ k → s.length ≤ j →
      replaceAllFuel needle repl j s = replaceAllFuel needle repl s.length s := by
  intro k
  induction k with
  | zero =>
    intro j s hj hs
    have hj0 : j = 0 := Nat.le_zero.mp hj
    subst hj0
    have hs0 : s = [] := List.length_eq_zero.mp (Nat.le_zero.mp hs)
    subst hs0
    rfl
  | succ k ih =>
    intro j s hj hs
    cases s with
    | nil => cases j <;> simp [replaceAllFuel]
    | cons x xs =>
      cases j with
      | zero => exact absurd hs (by simp)
      | succ j =>
        have hs' : xs.length + 1 ≤ j + 1 := by simpa using hs
        have hj' : j ≤ k := Nat.le_of_succ_le_succ hj
        rw [List.length_cons]
        simp only [replaceAllFuel]
        by_cases hc : 1 ≤ needle.length ∧ leadsWith needle (x :: xs) = true
        · rw [if_pos hc, if_pos hc]
          have hdl : (List.drop (needle.length - 1) xs).length
              = xs.length - (needle.length - 1) := by
            rw [List.length_drop]
          congr 1
          rw [ih j (List.drop (needle.length - 1) xs) hj' (by rw [hdl]; omega),
            ih xs.length (List.drop (needle.length - 1) xs)
              (by omega) (by rw [hdl]; omega)]
        · rw [if_neg hc, if_neg hc]
          rw [ih j xs hj' (by omega), ih xs.length xs (by omega) le_rfl]

theorem replaceAll_cons_pos (needle repl : List Char) (x : Char) (xs : List Char)
    (hn : 1 ≤ needle.length) (h : leadsWith needle (x :: xs) = true) :
    replaceAll needle repl (x :: xs)
      = repl ++ replaceAll needle repl (List.drop (needle.length - 1) xs) := by
  unfold replaceAll
  rw [List.length_cons]
  simp only [replaceAllFuel]
  rw [if_pos ⟨hn, h⟩]
  congr 1
  exact replaceAllFuel_fuel needle repl xs.length xs.length
    (List.drop (needle.length - 1) xs) le_rfl (by rw [List.length_drop]; omega)

theorem replaceAll_cons_neg (needle repl : List Char) (x : Char) (xs : List Char)
    (h : leadsWith needle (x :: xs) = false) :
    replaceAll needle repl (x :: xs) = x :: replaceAll needle repl xs := by
  unfold replaceAll
  rw [List.length_cons]
  simp only [replaceAllFuel]
  rw [if_neg (by simp [h])]

/-- If `"f"` starts the escaped form of `u`, it already starts `u`:
`escapeChar '/'` only inserts runs beginning with `'%'`. -/
theorem leadsWith_f_escape (u : List Char) :
    leadsWith ['f'] (escapeChar '/' u) = true → leadsWith ['f'] u = true := by
  cases u with
  | nil => simp [escapeChar, leadsWith]
  | cons z v =>
    by_cases hz : z = '/'
    · subst hz
      simp [escapeChar, charHex_slash, leadsWith]
    · rw [show escapeChar '/' (z :: v) = z :: escapeChar '/' v by
        simp [escapeChar, hz]]
      simp only [leadsWith]
      exact fun h => h

/-- If `"2f"` starts the escaped form of `t`, it already starts `t`. -/
theorem leadsWith_two_f_escape (t : List Char) :
    leadsWith ['2', 'f'] (escapeChar '/' t) = true →
      leadsWith ['2', 'f'] t = true := by
  cases t with
  | nil => simp [escapeChar, leadsWith]
  | cons y u =>
    by_cases hy : y = '/'
    · subst hy
      simp [escapeChar, charHex_slash, leadsWith]
    · rw [show escapeChar '/' (y :: u) = y :: escapeChar '/' u by
        simp [escapeChar, hy]]
      simp only [leadsWith]
      by_cases h2 : '2' = y
      · rw [if_pos h2, if_pos h2]
        exact leadsWith_f_escape u
      · rw [if_neg h2, if_neg h2]
        exact fun h => h

/-- Core of C2: on a string with no literal `"%2f"`, unescaping undoes
escaping of `'/'`. -/
theorem unescape_escape_aux :
    ∀ s : List Char, containsSeq ['%', '2', 'f'] s = false →
      replaceAll ['%', '2', 'f'] ['/'] (escapeChar '/' s) = s := by
  intro s
  induction s with
  | nil => intro _; decide
  | cons x xs ih =>
    intro h
    have hx : leadsWith ['%', '2', 'f'] (x :: xs) = false
        ∧ containsSeq ['%', '2', 'f'] xs = false := by
      have := h
      simp only [containsSeq, Bool.or_eq_false_iff] at this
      exact this
    by_cases hslash : x = '/'
    · subst hslash
      rw [show escapeChar '/' ('/' :: xs) = '%' :: '2' :: 'f' :: escapeChar '/' xs by
        simp [escapeChar, charHex_slash]]
      rw [replaceAll_cons_pos _ _ _ _ (by simp) (by simp [leadsWith])]
      rw [show List.drop ((['%', '2', 'f'] : List Char).length - 1)
          ('2' :: 'f' :: escapeChar '/' xs) = escapeChar '/' xs from rfl]
      rw [ih hx.2]
      rfl
    · by_cases hpct : x = '%'
      · subst hpct
        rw [show escapeChar '/' ('%' :: xs) = '%' :: escapeChar '/' xs by
          simp [escapeChar, hslash]]
        have hnp : leadsWith ['2', 'f'] (escapeChar '/' xs) = false := by
          cases hcl : leadsWith ['2', 'f'] (escapeChar '/' xs) with
          | false => rfl
          | true =>
            exfalso
            have h2f := leadsWith_two_f_escape xs hcl
            have htrue : leadsWith ['%', '2', 'f'] ('%' :: xs) = true := by
              simp only [leadsWith, if_pos rfl]
              exact h2f
            rw [hx.1] at htrue
            exact Bool.false_ne_true htrue
        have hlead : leadsWith ['%', '2', 'f'] ('%' :: escapeChar '/' xs) = false := by
          simp only [leadsWith, if_pos rfl]
          exact hnp
        rw [replaceAll_cons_neg _ _ _ _ hlead, ih hx.2]
      · rw [show escapeChar '/' (x :: xs) = x :: escapeChar '/' xs by
          simp [escapeChar, hslash]]
        have hlead : leadsWith ['%', '2', 'f'] (x :: escapeChar '/' xs) = false := by
          simp only [leadsWith]
          rw [if_neg (fun e => hpct e.symm)]
        rw [replaceAll_cons_neg _ _ _ _ hlead, ih hx.2]

/-- C2: for every string `s` that does not already contain the literal
escape sequence `"%2f"` for `'/'`, `unescapeChar '/' (escapeChar '/' s) = s`:
escaping then unescaping the `'/'` character is the identity on such
strings. -/
theorem escapeChar_unescapeChar_id (s : List Char)
    (h : containsSeq ('%' :: charHex '/') s = false) :
    unescapeChar '/' (escapeChar '/' s) = s := by
  rw [charHex_slash] at h
  unfold unescapeChar
  rw [charHex_slash]
  exact unescape_escape_aux s h

/-- Witness for C2 at the concrete string `"a/b%2"`. -/
theorem escapeChar_unescapeChar_id_witness :
    containsSeq ('%' :: charHex '/') ("a/b%2".data) = false ∧
      unescapeChar '/' (escapeChar '/' ("a/b%2".data)) = "a/b%2".data :=
  ⟨by decide, escapeChar_unescapeChar_id ("a/b%2".data) (by decide)⟩

/-- Value of a hexadecimal digit character, if it is one. -/
def hexDigitVal (c : Char) : Option Nat :=
  if '0' ≤ c ∧ c ≤ '9' then some (c.toNat - 48)
  else if 'a' ≤ c ∧ c ≤ 'f' then some (c.toNat - 87)
  else if 'A' ≤ c ∧ c ≤ 'F' then some (c.toNat - 55)
  else none

/-- `decodeURIComponent`, restricted to single-byte percent escapes: a
`'%'` followed by two hex digits decodes to the corresponding code
point; other characters pass through.  (The full browser function also
decodes multi-byte UTF-8 sequences and throws on malformed input;
every string handled by the claims is ASCII and well formed, where the
two functions agree.  Malformed escapes, on which the browser throws,
are passed through here.) -/
def decodeURIComponentChars : List Char → List Char
  | [] => []
  | c :: rest =>
    if c = '%' then
      match rest with
      | [] => [c]
      | [x] => [c, x]
      | h :: l :: rest2 =>
        match hexDigitVal h, hexDigitVal l with
        | some a, some b => Char.ofNat (16 * a + b) :: decodeURIComponentChars rest2
        | _, _ => c :: h :: l :: decodeURIComponentChars rest2
    else c :: decodeURIComponentChars rest

/-- The character class kept verbatim by `encodeFragment` (source line
392): `[a-zA-Z0-9!$&'()*+,;=:@\-._~?\/]`. -/
def isFragmentSafe (c : Char) : Bool :=
  decide (('a' ≤ c ∧ c ≤ 'z') ∨ ('A' ≤ c ∧ c ≤ 'Z') ∨ ('0' ≤ c ∧ c ≤ '9') ∨
    c ∈ ['!', '$', '&', '\'', '(', ')', '*', '+', ',', ';', '=', ':', '@',
         '-', '.', '_', '~', '?', '/'])

/-- `encodeFragment(string)` (source lines 391-395): every character
outside the fragment-safe class is replaced by `'%' + hex code`. -/
def encodeFragment : List Char → List Char
  | [] => []
  | c :: rest =>
    (if isFragmentSafe c then [c] else '%' :: charHex c) ++ encodeFragment rest

/-- JavaScript `string.split(sep)` for a single-character separator. -/
def splitChar (sep : Char) : List Char → List (List Char)
  | [] => [[]]
  | c :: rest =>
    if c = sep then [] :: splitChar sep rest
    else
      match splitChar sep rest with
      | [] => [[c]]
      | g :: gs => (c :: g) :: gs

/-- JavaScript `array[i] = v` followed by `join`: assigning past the end
creates empty slots, which `join` renders as empty strings. -/
def jsArraySet (l : List (List Char)) (i : Nat) (v : List Char) :
    List (List Char) :=
  if i < l.length then l.set i v
  else l ++ List.replicate (i - l.length) [] ++ [v]

/-- JavaScript `array.join(sep)`. -/
def jsJoin (sep : List Char) : List (List Char) → List Char
  | [] => []
  | [g] => g
  | g :: g2 :: gs => g ++ sep ++ jsJoin sep (g2 :: gs)

/-- The decoded slash-separated segment of `window.location.hash` at
index `i` (`fragments[this.props.hashIndex] || ''`, source lines
444-446): drop the leading `'#'`, URI-decode, split on `'/'`, take
segment `i` (empty if absent). -/
def currentFragment (i : Nat) (locationHash : List Char) : List Char :=
  (splitChar '/' (decodeURIComponentChars (locationHash.drop 1))).getD i []

/-- `componentDidUpdate` of `createLocationHashMixin` (source lines
432-441): recompute the owned segment from the save callback (already
reduced to its string value `saveValue`, after `|| ''`), escape `'/'`
in it, and if it differs from the current segment rewrite
`window.location.hash` with only that segment substituted.  Returns the
resulting `window.location.hash`. -/
def componentDidUpdate (hashIndex : Nat) (saveValue : List Char)
    (locationHash : List Char) : List Char :=
  let hash := decodeURIComponentChars (locationHash.drop 1)
  let fragments := splitChar '/' hash
  let oldFragment := fragments.getD hashIndex []
  let newFragment := escapeChar '/' saveValue
  if oldFragment ≠ newFragment then
    '#' :: encodeFragment (jsJoin ['/']
      (jsArraySet fragments hashIndex newFragment))
  else locationHash

/-- `handleHashChange` (source lines 443-451): compare the current
decoded segment with the remembered `__previousHashFragment` (`none`
models `undefined`); on a difference, remember the new segment and call
the load callback with its unescaped value.  Returns the new remembered
fragment and `some loadArgument` when load was invoked, `none`
otherwise. -/
def handleHashChange (hashIndex : Nat) (previousHashFragment : Option (List Char))
    (locationHash : List Char) : Option (List Char) × Option (List Char) :=
  let fragment := currentFragment hashIndex locationHash
  if previousHashFragment = some fragment then (previousHashFragment, none)
  else (some fragment, some (unescapeChar '/' fragment))

theorem splitChar_ne_nil (sep : Char) (s : List Char) : splitChar sep s ≠ [] := by
  cases s with
  | nil => simp [splitChar]
  | cons c rest =>
    simp only [splitChar]
    by_cases hc : c = sep
    · rw [if_pos hc]; simp
    · rw [if_neg hc]
      cases hsp : splitChar sep rest with
      | nil => simp
      | cons g gs => simp

theorem splitChar_no_sep (sep : Char) :
    ∀ (s g : List Char), g ∈ splitChar sep s → sep ∉ g := by
  intro s
  induction s with
  | nil =>
    intro g hg
    simp only [splitChar, List.mem_singleton] at hg
    subst hg
    simp
  | cons c rest ih =>
    intro g hg
    simp only [splitChar] at hg
    by_cases hc : c = sep
    · rw [if_pos hc] at hg
      rcases List.mem_cons.mp hg with hh | hh
      · subst hh; simp
      · exact ih g hh
    · rw [if_neg hc] at hg
      cases hsp : splitChar sep rest with
      | nil => exact absurd hsp (splitChar_ne_nil sep rest)
      | cons g0 gs =>
        rw [hsp] at hg
        rcases List.mem_cons.mp hg with hh | hh
        · subst hh
          intro hmem
          rcases List.mem_cons.mp hmem with h2 | h2
          · exact hc h2.symm
          · exact ih g0 (by rw [hsp]; exact List.mem_cons_self g0 gs) h2
        · exact ih g (by rw [hsp]; exact List.mem_cons.mpr (Or.inr hh))

theorem mem_of_mem_splitChar (sep : Char) :
    ∀ (s g : List Char) (c : Char), g ∈ splitChar sep s → c ∈ g → c ∈ s := by
  intro s
  induction s with
  | nil =>
    intro g c hg hc
    simp only [splitChar, List.mem_singleton] at hg
    subst hg
    cases hc
  | cons d rest ih =>
    intro g c hg hc
    simp only [splitChar] at hg
    by_cases hd : d = sep
    · rw [if_pos hd] at hg
      rcases List.mem_cons.mp hg with hh | hh
      · subst hh; cases hc
      · exact List.mem_cons.mpr (Or.inr (ih g c hh hc))
    · rw [if_neg hd] at hg
      cases hsp : splitChar sep rest with
      | nil => exact absurd hsp (splitChar_ne_nil sep rest)
      | cons g0 gs =>
        rw [hsp] at hg
        rcases List.mem_cons.mp hg with hh | hh
        · subst hh
          rcases List.mem_cons.mp hc with h2 | h2
          · exact List.mem_cons.mpr (Or.inl h2)
          · exact List.mem_cons.mpr (Or.inr
              (ih g0 c (by rw [hsp]; exact List.mem_cons_self g0 gs) h2))
        · exact List.mem_cons.mpr (Or.inr
            (ih g c (by rw [hsp]; exact List.mem_cons.mpr (Or.inr hh)) hc))

theorem splitChar_of_no_sep (sep : Char) :
    ∀ (g : List Char), sep ∉ g → splitChar sep g = [g] := by
  intro g
  induction g with
  | nil => intro _; rfl
  | cons c g2 ih =>
    intro hns
    have hc : ¬ c = sep := fun e => hns (by simp [e])
    simp only [splitChar]
    rw [if_neg hc, ih (fun hm => hns (List.mem_cons.mpr (Or.inr hm)))]

theorem splitChar_append_sep (sep : Char) :
    ∀ (a w : List Char), sep ∉ a →
      splitChar sep (a ++ sep :: w) = a :: splitChar sep w := by
  intro a
  induction a with
  | nil =>
    intro w _
    rw [List.nil_append]
    simp [splitChar]
  | cons c a2 ih =>
    intro w hns
    have hc : ¬ c = sep := fun e => hns (by simp [e])
    rw [List.cons_append]
    simp only [splitChar]
    rw [if_neg hc, ih w (fun hm => hns (List.mem_cons.mpr (Or.inr hm)))]

theorem splitChar_jsJoin (sep : Char) :
    ∀ (L : List (List Char)), L ≠ [] → (∀ g ∈ L, sep ∉ g) →
      splitChar sep (jsJoin [sep] L) = L := by
  intro L
  induction L with
  | nil => intro hne _; exact absurd rfl hne
  | cons g L2 ih =>
    intro _ hns
    cases L2 with
    | nil =>
      rw [show jsJoin [sep] [g] = g from rfl,
        splitChar_of_no_sep sep g (hns g (List.mem_cons_self g []))]
    | cons g2 L3 =>
      have hj : jsJoin [sep] (g :: g2 :: L3) = g ++ sep :: jsJoin [sep] (g2 :: L3) := by
        simp [jsJoin]
      rw [hj, splitChar_append_sep sep g _ (hns g (List.mem_cons_self _ _)),
        ih (by simp) (fun g3 h3 => hns g3 (List.mem_cons.mpr (Or.inr h3)))]

theorem mem_jsJoin (sep : Char) :
    ∀ (L : List (List Char)) (c : Char), c ∈ jsJoin [sep] L →
      c = sep ∨ ∃ g, g ∈ L ∧ c ∈ g := by
  intro L
  induction L with
  | nil => intro c hc; cases hc
  | cons g L2 ih =>
    intro c hc
    cases L2 with
    | nil => exact Or.inr ⟨g, List.mem_cons_self g [], hc⟩
    | cons g2 L3 =>
      have hj : jsJoin [sep] (g :: g2 :: L3) = g ++ sep :: jsJoin [sep] (g2 :: L3) := by
        simp [jsJoin]
      rw [hj] at hc
      rcases List.mem_append.mp hc with hh | hh
      · exact Or.inr ⟨g, List.mem_cons_self _ _, hh⟩
      · rcases List.mem_cons.mp hh with h2 | h2
        · exact Or.inl h2
        · rcases ih c h2 with h3 | ⟨g3, hg3, hcg3⟩
          · exact Or.inl h3
          · exact Or.inr ⟨g3, List.mem_cons.mpr (Or.inr hg3), hcg3⟩

theorem getD_set_ne {α : Type} :
    ∀ (l : List α) (i j : Nat) (v d : α), j ≠ i →
      (l.set i v).getD j d = l.getD j d := by
  intro l
  induction l with
  | nil => intro i j v d _; rfl
  | cons x xs ih =>
    intro i j v d hj
    cases i with
    | zero =>
      cases j with
      | zero => exact absurd rfl hj
      | succ j2 => rfl
    | succ i2 =>
      cases j with
      | zero => rfl
      | succ j2 =>
        rw [List.set_cons_succ, List.getD_cons_succ, List.getD_cons_succ]
        exact ih i2 j2 v d (fun e => hj (by rw [e]))

theorem getD_set_self {α : Type} :
    ∀ (l : List α) (i : Nat) (v d : α), i < l.length →
      (l.set i v).getD i d = v := by
  intro l
  induction l with
  | nil => intro i v d hi; cases hi
  | cons x xs ih =>
    intro i v d hi
    cases i with
    | zero => rfl
    | succ i2 =>
      rw [List.set_cons_succ, List.getD_cons_succ]
      exact ih i2 v d (by simpa using hi)

theorem getD_append_lt {α : Type} :
    ∀ (l1 l2 : List α) (j : Nat) (d : α), j < l1.length →
      (l1 ++ l2).getD j d = l1.getD j d := by
  intro l1
  induction l1 with
  | nil => intro l2 j d hj; cases hj
  | cons x xs ih =>
    intro l2 j d hj
    cases j with
    | zero => rfl
    | succ j2 =>
      rw [List.cons_append, List.getD_cons_succ, List.getD_cons_succ]
      exact ih l2 j2 d (by simpa using hj)

theorem getD_append_ge {α : Type} :
    ∀ (l1 l2 : List α) (j : Nat) (d : α), l1.length ≤ j →
      (l1 ++ l2).getD j d = l2.getD (j - l1.length) d := by
  intro l1
  induction l1 with
  | nil => intro l2 j d _; simp
  | cons x xs ih =>
    intro l2 j d hj
    cases j with
    | zero => exact absurd hj (by simp)
    | succ j2 =>
      rw [List.cons_append, List.getD_cons_succ,
        ih l2 j2 d (by simpa using hj)]
      simp [Nat.succ_sub_succ]

theorem getD_out_of_range {α : Type} :
    ∀ (l : List α) (j : Nat) (d : α), l.length ≤ j → l.getD j d = d := by
  intro l
  induction l with
  | nil => intro j d _; rfl
  | cons x xs ih =>
    intro j d hj
    cases j with
    | zero => exact absurd hj (by simp)
    | succ j2 =>
      rw [List.getD_cons_succ]
      exact ih j2 d (by simpa using hj)

theorem getD_replicate_default {α : Type} :
    ∀ (n j : Nat) (d : α), (List.replicate n d).getD j d = d := by
  intro n
  induction n with
  | zero => intro j d; rfl
  | succ n2 ih =>
    intro j d
    cases j with
    | zero => rfl
    | succ j2 =>
      rw [List.replicate_succ, List.getD_cons_succ]
      exact ih j2 d

theorem jsArraySet_getD_ne (l : List (List Char)) (i j : Nat) (v : List Char)
    (hij : j ≠ i) : (jsArraySet l i v).getD j [] = l.getD j [] := by
  unfold jsArraySet
  by_cases hi : i < l.length
  · rw [if_pos hi]
    exact getD_set_ne l i j v [] hij
  · rw [if_neg hi]
    push_neg at hi
    by_cases hj : j < l.length
    · rw [getD_append_lt _ _ _ _
          (by rw [List.length_append, List.length_replicate]; omega),
        getD_append_lt _ _ _ _ hj]
    · push_neg at hj
      rw [getD_out_of_range l j [] hj]
      by_cases hji : j < i
      · rw [getD_append_lt _ _ _ _
            (by rw [List.length_append, List.length_replicate]; omega),
          getD_append_ge _ _ _ _ hj]
        exact getD_replicate_default _ _ _
      · rw [getD_append_ge _ _ _ _
            (by rw [List.length_append, List.length_replicate]; omega)]
        apply getD_out_of_range
        rw [List.length_singleton, List.length_append, List.length_replicate]
        omega

theorem jsArraySet_getD_self (l : List (List Char)) (i : Nat) (v : List Char) :
    (jsArraySet l i v).getD i [] = v := by
  unfold jsArraySet
  by_cases hi : i < l.length
  · rw [if_pos hi]
    exact getD_set_self l i v [] hi
  · rw [if_neg hi]
    push_neg at hi
    have hlen : (l ++ List.replicate (i - l.length) ([] : List Char)).length = i := by
      rw [List.length_append, List.length_replicate]; omega
    rw [getD_append_ge _ _ _ _ (le_of_eq hlen), hlen, Nat.sub_self]
    rfl

theorem mem_jsArraySet (l : List (List Char)) (i : Nat) (v g : List Char)
    (h : g ∈ jsArraySet l i v) : g ∈ l ∨ g = [] ∨ g = v := by
  unfold jsArraySet at h
  by_cases hi : i < l.length
  · rw [if_pos hi] at h
    rcases List.mem_or_eq_of_mem_set h with h2 | h2
    · exact Or.inl h2
    · exact Or.inr (Or.inr h2)
  · rw [if_neg hi] at h
    rcases List.mem_append.mp h with h2 | h2
    · rcases List.mem_append.mp h2 with h3 | h3
      · exact Or.inl h3
      · exact Or.inr (Or.inl (List.eq_of_mem_replicate h3))
    · rcases List.mem_cons.mp h2 with h4 | h4
      · exact Or.inr (Or.inr h4)
      · cases h4

theorem jsArraySet_ne_nil (l : List (List Char)) (i : Nat) (v : List Char)
    (hl : l ≠ []) : jsArraySet l i v ≠ [] := by
  unfold jsArraySet
  by_cases hi : i < l.length
  · rw [if_pos hi]
    cases l with
    | nil => exact absurd rfl hl
    | cons x xs => cases i <;> simp
  · rw [if_neg hi]
    simp

theorem slash_not_mem_escapeChar : ∀ (v : List Char), '/' ∉ escapeChar '/' v := by
  intro v
  induction v with
  | nil => simp [escapeChar]
  | cons x xs ih =>
    simp only [escapeChar]
    intro hmem
    rcases List.mem_append.mp hmem with hh | hh
    · by_cases hx : x = '/'
      · rw [if_pos hx, charHex_slash] at hh
        simp at hh
      · rw [if_neg hx] at hh
        simp only [List.mem_singleton] at hh
        exact hx hh.symm
    · exact ih hh

theorem isFragmentSafe_slash : isFragmentSafe '/' = true := by decide

theorem isFragmentSafe_percent : isFragmentSafe '%' = false := by decide

theorem decode_cons_ne (c : Char) (w : List Char) (hc : ¬ c = '%') :
    decodeURIComponentChars (c :: w) = c :: decodeURIComponentChars w := by
  match w with
  | [] => simp [decodeURIComponentChars, hc]
  | [x] => simp [decodeURIComponentChars, hc]
  | h :: l :: r => simp [decodeURIComponentChars, hc]

theorem decode_escape (d1 d2 : Char) (w : List Char) (a b : Nat)
    (h1 : hexDigitVal d1 = some a) (h2 : hexDigitVal d2 = some b) :
    decodeURIComponentChars ('%' :: d1 :: d2 :: w)
      = Char.ofNat (16 * a + b) :: decodeURIComponentChars w := by
  simp only [decodeURIComponentChars]
  simp [h1, h2]

set_option maxRecDepth 8192 in
/-- For code points in `[16, 255]` the hex rendering used by the escape
functions has exactly two digits, and both are hex digits that decode
back to the quotient and remainder. -/
theorem toDigits_hex (n : Nat) (hlo : 16 ≤ n) (hhi : n < 256) :
    Nat.toDigits 16 n = [Nat.digitChar (n / 16), Nat.digitChar (n % 16)]
      ∧ hexDigitVal (Nat.digitChar (n / 16)) = some (n / 16)
      ∧ hexDigitVal (Nat.digitChar (n % 16)) = some (n % 16) := by
  have H : ∀ m, m < 256 → 16 ≤ m →
      Nat.toDigits 16 m = [Nat.digitChar (m / 16), Nat.digitChar (m % 16)]
        ∧ hexDigitVal (Nat.digitChar (m / 16)) = some (m / 16)
        ∧ hexDigitVal (Nat.digitChar (m % 16)) = some (m % 16) := by decide
  exact H n hhi hlo

/-- URI-decoding undoes `encodeFragment` on every string whose
characters are fragment-safe or have a two-hex-digit code point. -/
theorem decode_encode :
    ∀ (s : List Char),
      (∀ c ∈ s, isFragmentSafe c = true ∨ (16 ≤ c.toNat ∧ c.toNat ≤ 255)) →
      decodeURIComponentChars (encodeFragment s) = s := by
  intro s
  induction s with
  | nil => intro _; rfl
  | cons c rest ih =>
    intro hcs
    have hrest := fun c2 hc2 => hcs c2 (List.mem_cons.mpr (Or.inr hc2))
    by_cases hsafe : isFragmentSafe c = true
    · have hcp : ¬ c = '%' := by
        intro e
        rw [e, isFragmentSafe_percent] at hsafe
        exact Bool.false_ne_true hsafe
      rw [show encodeFragment (c :: rest) = c :: encodeFragment rest by
        simp [encodeFragment, hsafe]]
      rw [decode_cons_ne c _ hcp, ih hrest]
    · rcases hcs c (List.mem_cons_self c rest) with h1 | ⟨hlo, hhi⟩
      · exact absurd h1 hsafe
      have hdig := toDigits_hex c.toNat hlo (by omega)
      have hch : charHex c
          = [Nat.digitChar (c.toNat / 16), Nat.digitChar (c.toNat % 16)] := hdig.1
      rw [show encodeFragment (c :: rest)
          = '%' :: (charHex c ++ encodeFragment rest) by
        simp [encodeFragment, hsafe]]
      rw [hch]
      simp only [List.cons_append, List.nil_append]
      rw [decode_escape _ _ _ _ _ hdig.2.1 hdig.2.2, Nat.div_add_mod,
        Char.ofNat_toNat, ih hrest]

/-- C6: rewriting the URL after a state update replaces only the owned
segment.  In general — for every hash index `i`, save value, and URL
whose decoded fragment and escaped save value consist of fragment-safe
or two-hex-digit characters — the segment read back at any other index
`j ≠ i` is unchanged and the owned segment reads back as the escaped
save value.  Concretely, with `hashIndex = 2`, hash `#a/b/old/d` and
save value `new`, the written hash is `#a/b/new/d`, and reading that
URL back invokes the load callback with `new`. -/
theorem hashFragment_roundtrip (i j : Nat) (v hUrl : List Char) (hij : j ≠ i)
    (hh : ∀ c ∈ decodeURIComponentChars (hUrl.drop 1),
      isFragmentSafe c = true ∨ (16 ≤ c.toNat ∧ c.toNat ≤ 255))
    (hv : ∀ c ∈ escapeChar '/' v,
      isFragmentSafe c = true ∨ (16 ≤ c.toNat ∧ c.toNat ≤ 255)) :
    (currentFragment j (componentDidUpdate i v hUrl) = currentFragment j hUrl ∧
      currentFragment i (componentDidUpdate i v hUrl) = escapeChar '/' v) ∧
    componentDidUpdate 2 ("new".data) ("#a/b/old/d".data) = "#a/b/new/d".data ∧
    handleHashChange 2 (some ("old".data)) ("#a/b/new/d".data)
      = (some ("new".data), some ("new".data)) := by
  refine ⟨?_, by decide, by decide⟩
  by_cases heq : (splitChar '/' (decodeURIComponentChars (hUrl.drop 1))).getD i []
      = escapeChar '/' v
  · have hres : componentDidUpdate i v hUrl = hUrl := by
      simp only [componentDidUpdate]
      rw [if_neg (not_not_intro heq)]
    rw [hres]
    exact ⟨rfl, heq⟩
  · have hres : componentDidUpdate i v hUrl
        = '#' :: encodeFragment (jsJoin ['/']
          (jsArraySet (splitChar '/' (decodeURIComponentChars (hUrl.drop 1))) i
            (escapeChar '/' v))) := by
      simp only [componentDidUpdate]
      rw [if_pos heq]
    have hns : ∀ g ∈ jsArraySet (splitChar '/' (decodeURIComponentChars (hUrl.drop 1)))
        i (escapeChar '/' v), '/' ∉ g := by
      intro g hg
      rcases mem_jsArraySet _ _ _ _ hg with h1 | h1 | h1
      · exact splitChar_no_sep '/' _ g h1
      · subst h1; simp
      · subst h1; exact slash_not_mem_escapeChar v
    have hwchars : ∀ c ∈ jsJoin ['/']
        (jsArraySet (splitChar '/' (decodeURIComponentChars (hUrl.drop 1))) i
          (escapeChar '/' v)),
        isFragmentSafe c = true ∨ (16 ≤ c.toNat ∧ c.toNat ≤ 255) := by
      intro c hc
      rcases mem_jsJoin '/' _ c hc with h1 | ⟨g, hg, hcg⟩
      · subst h1; exact Or.inl isFragmentSafe_slash
      · rcases mem_jsArraySet _ _ _ _ hg with h2 | h2 | h2
        · exact hh c (mem_of_mem_splitChar '/' _ g c h2 hcg)
        · subst h2; cases hcg
        · subst h2; exact hv c hcg
    have hsplit : splitChar '/' (decodeURIComponentChars (encodeFragment
        (jsJoin ['/']
          (jsArraySet (splitChar '/' (decodeURIComponentChars (hUrl.drop 1))) i
            (escapeChar '/' v)))))
        = jsArraySet (splitChar '/' (decodeURIComponentChars (hUrl.drop 1))) i
            (escapeChar '/' v) := by
      rw [decode_encode _ hwchars]
      exact splitChar_jsJoin '/' _
        (jsArraySet_ne_nil _ _ _ (splitChar_ne_nil '/' _)) hns
    constructor
    · rw [hres]
      simp only [currentFragment, List.drop_succ_cons, List.drop_zero]
      rw [hsplit, jsArraySet_getD_ne _ _ _ _ hij]
    · rw [hres]
      simp only [currentFragment, List.drop_succ_cons, List.drop_zero]
      rw [hsplit, jsArraySet_getD_self]

/-- Witness for C6 at `hashIndex = 2`, neighbour index `1`, hash
`#a/b/old/d`, save value `new`. -/
theorem hashFragment_roundtrip_witness :
    (currentFragment 1 (componentDidUpdate 2 ("new".data) ("#a/b/old/d".data))
        = currentFragment 1 ("#a/b/old/d".data) ∧
      currentFragment 2 (componentDidUpdate 2 ("new".data) ("#a/b/old/d".data))
        = escapeChar '/' ("new".data)) ∧
    componentDidUpdate 2 ("new".data) ("#a/b/old/d".data) = "#a/b/new/d".data ∧
    handleHashChange 2 (some ("old".data)) ("#a/b/new/d".data)
      = (some ("new".data), some ("new".data)) :=
  hashFragment_roundtrip 2 1 ("new".data) ("#a/b/old/d".data) (by decide)
    (by decide) (by decide)

/-- C9: on a fragment-change notification the load callback is invoked
if and only if the decoded segment at the owned index differs from the
previously observed value, and the invocation argument is the unescaped
segment; when the segment is unchanged nothing happens. -/
theorem handleHashChange_change_detection (i : Nat)
    (prev : Option (List Char)) (locationHash : List Char) :
    ((handleHashChange i prev locationHash).2 ≠ none
        ↔ prev ≠ some (currentFragment i locationHash)) ∧
      handleHashChange i prev locationHash
        = (if prev = some (currentFragment i locationHash)
            then (prev, none)
            else (some (currentFragment i locationHash),
              some (unescapeChar '/' (currentFragment i locationHash)))) := by
  by_cases hp : prev = some (currentFragment i locationHash)
  · simp [handleHashChange, hp]
  · simp [handleHashChange, hp]

/-- A JavaScript `Error` object (always truthy). -/
structure ErrObj where
  message : String
deriving DecidableEq

/-- The three component-state fields the loader keeps per property
(`<key>Loaded`, `<key>Error`, `<key>`); `none` models `undefined`. -/
structure PropRecord where
  loaded : Bool
  error : Option ErrObj
  value : Option String
deriving DecidableEq

/-- The loader-relevant state of a component: the persistent
`__promisedStateIterationMap` (`0` models a missing entry, matching the
`undefined → 0` initialisation at source lines 128-130) and the React
state fields for each property. -/
structure CompState where
  iter : String → Nat
  props : String → PropRecord

/-- Pointwise update of a string-indexed map (JavaScript `obj[k] = v`). -/
def updFn {α : Type} (f : String → α) (k : String) (v : α) : String → α :=
  fun k2 => if k2 = k then v else f k2

/-- Registration of one key in `loadState` (source lines 122-135): set
the loading record `(loaded = false, error = undefined, value =
undefined)` and allocate a new iteration for the key. -/
def register1 (s : CompState) (k : String) : CompState :=
  { iter := updFn s.iter k (s.iter k + 1),
    props := updFn s.props k ⟨false, none, none⟩ }

/-- The synchronous prefix of `loadState(promisedState)` (source lines
108-136): register every key of the mapping and capture the local
`promisedStateIterationMap`.  Keys of a JavaScript object are distinct,
so the per-key snapshot taken during the loop equals the iteration map
after all registrations. -/
def loadStateStart (s : CompState) (ks : List String) : CompState × (String → Nat) :=
  (ks.foldl register1 s, (ks.foldl register1 s).iter)

/-- `setLoaded(key, result, err)` (source lines 140-150): apply the
terminal record only if the captured iteration still equals the current
one; otherwise the settlement is discarded silently. -/
def setLoaded (captured : String → Nat) (s : CompState) (k : String)
    (result : Option String) (err : Option ErrObj) : CompState :=
  if captured k = s.iter k
  then { s with props := updFn s.props k ⟨true, err, result⟩ }
  else s

/-- The resolution handler (source lines 154-156):
`setLoaded(key, result, undefined)`. -/
def settleResolve (captured : String → Nat) (s : CompState) (k : String)
    (r : String) : CompState :=
  setLoaded captured s k (some r) none

/-- A rejection reason, as the rejection handler distinguishes it:
`nullish` is `undefined` or `null` (reading `.stack` on it throws),
`falsy` is any other falsy value (`''`, `0`, `false`, `NaN`, on which
`.stack` reads as `undefined`), and `errObj` is a truthy error object. -/
inductive RejReason where
  | nullish
  | falsy
  | errObj (e : ErrObj)
deriving DecidableEq

/-- The rejection handler (source lines 157-162).  Its first statement
is `debug("...", key, err, err, err.stack)`: the argument `err.stack`
is evaluated before anything else in the handler body runs, so a
nullish reason makes the handler throw a `TypeError` and `setLoaded`
is never reached — the element promise rejects with the `TypeError`
(on a `null` reason the message reads `null` instead of `undefined`).
Otherwise `setLoaded(key, undefined, err || new Error("Unknown
Error"))` runs: a falsy reason is normalised to the generic error, a
truthy error object is stored as is. -/
def settleReject (captured : String → Nat) (s : CompState) (k : String) :
    RejReason → Except ErrObj CompState
  | RejReason.nullish =>
    Except.error
      ⟨"TypeError: Cannot read properties of undefined (reading 'stack')"⟩
  | RejReason.falsy =>
    Except.ok (setLoaded captured s k none (some ⟨"Unknown Error"⟩))
  | RejReason.errObj e =>
    Except.ok (setLoaded captured s k none (some e))

/-- `promise.then(onRes, onRej)` on a settled promise: the resulting
promise is whatever the matching handler returns (resolved on a normal
return, rejected on a throw). -/
def promiseThen {E E2 A B : Type} (p : Except E A) (onRes : A → Except E2 B)
    (onRej : E → Except E2 B) : Except E2 B :=
  match p with
  | .ok a => onRes a
  | .error e => onRej e

/-- One element of the `promises` array (source lines 153-163):
`Promise.resolve(promise).then(resolutionHandler, rejectionHandler)`.
The resolution handler only calls `setLoaded` and always returns
normally; the rejection handler can itself throw (nullish reason), in
which case the element promise rejects with the thrown `TypeError`. -/
def settleOne (captured : String → Nat) (s : CompState) (k : String)
    (outcome : Except RejReason String) : Except ErrObj CompState :=
  promiseThen outcome
    (fun r => Except.ok (settleResolve captured s k r))
    (fun e => settleReject captured s k e)

/-- `Promise.all(promises)` (source line 166), with the component state
threaded through the handlers in settlement order: rejects as soon as
one element promise rejects, resolves once all have resolved. -/
def runSettles (captured : String → Nat) :
    CompState → List (String × Except RejReason String) →
      Except ErrObj CompState
  | s, [] => .ok s
  | s, (k, o) :: rest =>
    promiseThen (settleOne captured s k o)
      (fun s2 => runSettles captured s2 rest)
      (fun e => .error e)

/-- `loadState(promisedState)` in full (source lines 108-169): register
all keys, then settle each computation with its outcome (`.ok result`
or `.error reason`).  The value is the promise returned by
`loadState`. -/
def loadState (s : CompState)
    (jobs : List (String × Except RejReason String)) :
    Except ErrObj CompState :=
  runSettles (loadStateStart s (jobs.map Prod.fst)).2
    (loadStateStart s (jobs.map Prod.fst)).1 jobs

/-- A freshly mounted component: no iterations allocated, no property
fields set. -/
def initCompState : CompState := ⟨fun _ => 0, fun _ => ⟨false, none, none⟩⟩

/-- State after two successive `loadState` registrations. -/
def afterTwoLoads (s0 : CompState) (ks1 ks2 : List String) : CompState :=
  (loadStateStart (loadStateStart s0 ks1).1 ks2).1

theorem updFn_self {α : Type} (f : String → α) (k : String) (v : α) :
    updFn f k v k = v := by
  simp [updFn]

theorem register1_iter_le (s : CompState) (k P : String) :
    s.iter P ≤ (register1 s k).iter P := by
  unfold register1 updFn
  by_cases h : P = k
  · subst h; simp
  · simp [h]

theorem foldl_register1_le :
    ∀ (ks : List String) (s : CompState) (P : String),
      s.iter P ≤ (ks.foldl register1 s).iter P := by
  intro ks
  induction ks with
  | nil => intro s P; exact le_rfl
  | cons k ks ih =>
    intro s P
    exact le_trans (register1_iter_le s k P) (ih (register1 s k) P)

theorem foldl_register1_lt :
    ∀ (ks : List String) (s : CompState) (P : String), P ∈ ks →
      s.iter P < (ks.foldl register1 s).iter P := by
  intro ks
  induction ks with
  | nil => intro s P h; cases h
  | cons k ks ih =>
    intro s P h
    rcases List.mem_cons.mp h with h | h
    · subst h
      have h1 : s.iter P < (register1 s P).iter P := by
        simp only [register1, updFn_self]
        omega
      exact lt_of_lt_of_le h1 (foldl_register1_le ks (register1 s P) P)
    · exact lt_of_le_of_lt (register1_iter_le s k P) (ih (register1 s k) P h)

/-- C1: for every tracked property `P`, if a computation is registered
for `P` via `loadState` (key list `ks1` containing `P`) and a second
one is registered (key list `ks2` containing `P`) before the first
settles, then the first computation's settlement — with any outcome
`(r1, e1)` — leaves the state for `P` unchanged, while the second
computation's settlement makes the state for `P` reflect its outcome:
`(true, none, some r)` on resolution with `r`, and on rejection with
the error object `e` the handler completes without throwing with the
state `(true, some e, none)`. -/
theorem loadState_stale_guard (s0 : CompState) (P : String)
    (ks1 ks2 : List String) (r1 : Option String) (e1 : Option ErrObj)
    (r : String) (e : ErrObj) (h1 : P ∈ ks1) (h2 : P ∈ ks2) :
    setLoaded (loadStateStart s0 ks1).2 (afterTwoLoads s0 ks1 ks2) P r1 e1
        = afterTwoLoads s0 ks1 ks2 ∧
      (settleResolve (loadStateStart (loadStateStart s0 ks1).1 ks2).2
          (afterTwoLoads s0 ks1 ks2) P r).props P = ⟨true, none, some r⟩ ∧
      (settleReject (loadStateStart (loadStateStart s0 ks1).1 ks2).2
          (afterTwoLoads s0 ks1 ks2) P (RejReason.errObj e)).map
          (fun s3 => s3.props P) = Except.ok ⟨true, some e, none⟩ := by
  have hlt : (loadStateStart s0 ks1).1.iter P < (afterTwoLoads s0 ks1 ks2).iter P := by
    simp only [loadStateStart, afterTwoLoads]
    exact foldl_register1_lt ks2 _ P h2
  have hcap : (loadStateStart (loadStateStart s0 ks1).1 ks2).2 P
      = (afterTwoLoads s0 ks1 ks2).iter P := rfl
  refine ⟨?_, ?_, ?_⟩
  · unfold setLoaded
    rw [if_neg]
    exact Nat.ne_of_lt hlt
  · unfold settleResolve setLoaded
    rw [if_pos hcap]
    simp [updFn]
  · simp only [settleReject]
    unfold setLoaded
    rw [if_pos hcap]
    simp [updFn, Except.map]

/-- Witness for C1 at a concrete double registration of key `"p"`. -/
theorem loadState_stale_guard_witness :
    setLoaded (loadStateStart initCompState ["p"]).2
        (afterTwoLoads initCompState ["p"] ["p"]) "p" none none
        = afterTwoLoads initCompState ["p"] ["p"] ∧
      (settleResolve (loadStateStart (loadStateStart initCompState ["p"]).1 ["p"]).2
          (afterTwoLoads initCompState ["p"] ["p"]) "p" "v1").props "p"
        = ⟨true, none, some "v1"⟩ ∧
      (settleReject (loadStateStart (loadStateStart initCompState ["p"]).1 ["p"]).2
          (afterTwoLoads initCompState ["p"] ["p"]) "p"
          (RejReason.errObj ⟨"e2"⟩)).map (fun s3 => s3.props "p")
        = Except.ok ⟨true, some ⟨"e2"⟩, none⟩ :=
  loadState_stale_guard initCompState "p" ["p"] ["p"] none none "v1" ⟨"e2"⟩
    (by decide) (by decide)

/-- C7, behaviour of the code at the failing input: a rejection whose
reason is missing (`undefined`/`null`) makes the rejection handler
itself throw a `TypeError` while evaluating `err.stack` in its `debug`
call (source line 159), before `setLoaded` runs — so `<P>Error` is
never set, generic or otherwise, and `<P>Loaded` stays `false`; the
claim says `<P>Error` becomes the non-null "Unknown Error" object.
For an empty-but-present falsy reason such as `''` or `0`, which does
reach `setLoaded`, the generic error is stored as the claim describes
(second conjunct, under the not-superseded hypothesis). -/
theorem reject_nullish_reason_throws (cap : String → Nat) (s : CompState)
    (P : String) (hcap : cap P = s.iter P) :
    settleReject cap s P RejReason.nullish
        = Except.error
          ⟨"TypeError: Cannot read properties of undefined (reading 'stack')"⟩ ∧
      (settleReject cap s P RejReason.falsy).map (fun s2 => s2.props P)
        = Except.ok ⟨true, some ⟨"Unknown Error"⟩, none⟩ := by
  constructor
  · rfl
  · simp only [settleReject]
    unfold setLoaded
    rw [if_pos hcap]
    simp [updFn, Except.map]

/-- Witness for C7 with a fresh component state and key `"p"`. -/
theorem reject_nullish_reason_throws_witness :
    settleReject (fun _ => 0) initCompState "p" RejReason.nullish
        = Except.error
          ⟨"TypeError: Cannot read properties of undefined (reading 'stack')"⟩ ∧
      (settleReject (fun _ => 0) initCompState "p" RejReason.falsy).map
          (fun s2 => s2.props "p")
        = Except.ok ⟨true, some ⟨"Unknown Error"⟩, none⟩ :=
  reject_nullish_reason_throws (fun _ => 0) initCompState "p" rfl

/-- C8, behaviour of the code at the failing input: a mapping with a
computation that rejects with a missing (`undefined`/`null`) reason.
The rejection handler throws a `TypeError` at `err.stack` (source line
159), that element promise rejects, and the `Promise.all(...).then(...)`
promise returned by `loadState` rejects with the `TypeError` — it does
not resolve, and the rejection is not stored as the property's error.
The claim says every rejection is captured and the returned promise
always resolves once all computations have settled. -/
theorem loadState_rejects_on_nullish_reason :
    loadState initCompState [("p", Except.error RejReason.nullish)]
      = Except.error
        ⟨"TypeError: Cannot read properties of undefined (reading 'stack')"⟩ := rfl

/-- The JavaScript values that can reach `startListening`'s `bindings`
parameter: `undefined`, `null`, an array of filters, or a number (which
`componentDidMount` passes, source line 266). -/
inductive JSVal where
  | undef
  | null
  | arr (l : List String)
  | num (n : Nat)
deriving DecidableEq

/-- JavaScript falsiness of such a value (`!bindings`). -/
def jsFalsy : JSVal → Bool
  | .undef => true
  | .null => true
  | .num 0 => true
  | .num (_ + 1) => false
  | .arr _ => false

/-- `bindings.length === 0`: arrays compare their length; on a number
`length` is `undefined` and `undefined === 0` is false. -/
def jsLengthIsZero : JSVal → Bool
  | .arr l => l.isEmpty
  | _ => false

/-- The underlying `taskcluster.WebListener` object, reduced to the
bindings bound on it. -/
structure ListenerObj where
  bound : List String
deriving DecidableEq

/-- The `listening` state field: `undefined` before any call, `null`
while (re)connecting, `true` connected, `false` stopped/failed. -/
inductive Listening where
  | undef
  | connecting
  | connected
  | disconnected
deriving DecidableEq

/-- Component state of `createWebListenerMixin`: the `__listener`
handle, the `listening` and `listeningError` state fields, and a count
of `new taskcluster.WebListener()` constructions (to express "exactly
one subscription object was created"). -/
structure WLState where
  listener : Option ListenerObj
  listening : Listening
  listeningError : Option String
  created : Nat
deriving DecidableEq

/-- What `startListening` hands back to its caller: an immediately
resolved promise, a promise pending on bind/resume, or a synchronously
thrown exception. -/
inductive SLRet where
  | resolvedImmediate
  | pending
  | threw (msg : String)
deriving DecidableEq

/-- `startListening(bindings)` (source lines 276-342), synchronous part.
`!bindings || bindings.length === 0` returns a resolved promise
untouched.  With no listener open: construct one, register the message
and error handlers, bind all given bindings (`bindings.map(...)`), set
`listening: null`, and return the promise of `Promise.all`.  With a
listener open: set `listening: null` and bind the new bindings.  A
non-array that passes the guard (a positive number) throws a
`TypeError` at `bindings.map`; with no listener open the construction
and handler registration have already happened by then. -/
def startListening (bindings : JSVal) (s : WLState) : WLState × SLRet :=
  if jsFalsy bindings || jsLengthIsZero bindings then
    (s, SLRet.resolvedImmediate)
  else
    match bindings, s.listener with
    | JSVal.arr l, none =>
      ({ listener := some ⟨l⟩, listening := Listening.connecting,
         listeningError := none, created := s.created + 1 }, SLRet.pending)
    | JSVal.arr l, some lo =>
      ({ s with
          listener := some ⟨lo.bound ++ l⟩,
          listening := Listening.connecting,
          listeningError := none },
       SLRet.pending)
    | _, none =>
      ({ s with listener := some ⟨[]⟩, created := s.created + 1 },
       SLRet.threw "TypeError: bindings.map is not a function")
    | _, some _ =>
      ({ s with listening := Listening.connecting, listeningError := none },
       SLRet.threw "TypeError: bindings.map is not a function")

/-- What `stopListening` returns: `Promise.resolve(undefined)` when no
listener is open, otherwise the promise of `listener.close()`. -/
inductive StopRet where
  | immediate
  | closedHandle
deriving DecidableEq

/-- `stopListening()` (source lines 345-353): set `listening: false`;
if a listener is open, close it and release the handle. -/
def stopListening (s : WLState) : WLState × StopRet :=
  match s.listener with
  | some _ =>
    ({ s with listening := Listening.disconnected, listener := none },
     StopRet.closedHandle)
  | none =>
    ({ s with listening := Listening.disconnected }, StopRet.immediate)

/-- Component state right after `this.__listener = null` in
`componentDidMount` (source line 263): no listener, `listening` and
`listeningError` still `undefined`, nothing constructed. -/
def initWLState : WLState := ⟨none, Listening.undef, none, 0⟩

/-- `componentDidMount` of `createWebListenerMixin` (source lines
262-268): if the configured bindings are non-empty it calls
`this.startListening(options.bindings.length)` — the *number* of
bindings, as written in the source.  Returns the resulting state and
`some` return of `startListening` when it was called. -/
def componentDidMount (bindings : List String) : WLState × Option SLRet :=
  if bindings.length > 0 then
    ((startListening (JSVal.num bindings.length) initWLState).1,
     some (startListening (JSVal.num bindings.length) initWLState).2)
  else (initWLState, none)

/-- C3: calling `startListening` with a non-empty filter list `F1` and
then with a disjoint non-empty filter list `F2` leaves exactly one
constructed subscription object, bound to every filter of the union of
`F1` and `F2`. -/
theorem startListening_twice_union (F1 F2 : List String)
    (h1 : F1 ≠ []) (h2 : F2 ≠ []) (hd : ∀ f ∈ F1, f ∉ F2) :
    ((startListening (JSVal.arr F2)
        (startListening (JSVal.arr F1) initWLState).1).1).created = 1 ∧
      ∃ lo, ((startListening (JSVal.arr F2)
          (startListening (JSVal.arr F1) initWLState).1).1).listener = some lo ∧
        ∀ f, f ∈ lo.bound ↔ (f ∈ F1 ∨ f ∈ F2) := by
  have e1 : (startListening (JSVal.arr F1) initWLState).1
      = ⟨some ⟨F1⟩, Listening.connecting, none, 1⟩ := by
    cases F1 with
    | nil => exact absurd rfl h1
    | cons a as =>
      simp [startListening, jsFalsy, jsLengthIsZero, initWLState]
  rw [e1]
  have e2 : startListening (JSVal.arr F2)
      (⟨some ⟨F1⟩, Listening.connecting, none, 1⟩ : WLState)
      = (⟨some ⟨F1 ++ F2⟩, Listening.connecting, none, 1⟩, SLRet.pending) := by
    cases F2 with
    | nil => exact absurd rfl h2
    | cons b bs =>
      simp [startListening, jsFalsy, jsLengthIsZero]
  rw [e2]
  exact ⟨rfl, ⟨F1 ++ F2⟩, rfl, fun f => List.mem_append⟩

/-- Witness for C3 with the disjoint singleton filter lists `["a1"]`
and `["b1"]`. -/
theorem startListening_twice_union_witness :
    ((startListening (JSVal.arr ["b1"])
        (startListening (JSVal.arr ["a1"]) initWLState).1).1).created = 1 ∧
      ∃ lo, ((startListening (JSVal.arr ["b1"])
          (startListening (JSVal.arr ["a1"]) initWLState).1).1).listener = some lo ∧
        ∀ f, f ∈ lo.bound ↔ (f ∈ ["a1"] ∨ f ∈ ["b1"]) :=
  startListening_twice_union ["a1"] ["b1"] (by decide) (by decide) (by decide)

/-- C4, behaviour of the code at a failing input: with the non-empty
initial binding list `["exchange/x"]`, `componentDidMount` calls
`startListening` with the *number* `1` (`options.bindings.length`,
source line 266); the guard lets it through, a listener is constructed
with handlers registered, and then `bindings.map` throws a `TypeError`
— no filter is ever bound.  The claim says every filter of the initial
set is bound; the code binds none and the exception escapes
`componentDidMount`. -/
theorem componentDidMount_throws :
    componentDidMount ["exchange/x"]
      = (⟨some ⟨[]⟩, Listening.undef, none, 1⟩,
         some (SLRet.threw "TypeError: bindings.map is not a function")) := by
  decide

/-- C5: calling `stopListening` when no subscription is open does not
throw, returns the immediately resolved promise, and leaves the
`listening` status equal to `false` — and nothing else changes. -/
theorem stopListening_idempotent (s : WLState) (h : s.listener = none) :
    stopListening s
      = ({ s with listening := Listening.disconnected }, StopRet.immediate) := by
  unfold stopListening
  rw [h]

/-- Witness for C5 on the freshly mounted state. -/
theorem stopListening_idempotent_witness :
    stopListening initWLState
      = ({ initWLState with listening := Listening.disconnected },
         StopRet.immediate) :=
  stopListening_idempotent initWLState rfl

/-- C10: `startListening` with a missing (`undefined`), `null`, or
empty filter list returns an immediately resolved promise and is a
complete no-op: the state — listener handle, creation count,
`listening`, `listeningError` — is untouched; in particular the status
is not set to connecting and no subscription object is created. -/
theorem startListening_empty_noop (s : WLState) (b : JSVal)
    (h : b = JSVal.undef ∨ b = JSVal.null ∨ b = JSVal.arr []) :
    startListening b s = (s, SLRet.resolvedImmediate) := by
  rcases h with rfl | rfl | rfl <;>
    simp [startListening, jsFalsy, jsLengthIsZero]

/-- Witness for C10 at `bindings = null` on the freshly mounted state. -/
theorem startListening_empty_noop_witness :
    startListening JSVal.null initWLState
      = (initWLState, SLRet.resolvedImmediate) :=
  startListening_empty_noop initWLState JSVal.null (Or.inr (Or.inl rfl))
